import Mathlib

/-!
Shallow embedding of the PVSS package (package `pvss`, file `pvss_test.go`
material: hash-to-curve, secret-sharing polynomial, Feldman commitments,
DLEQ proofs, share encryption and decryption) over the secp256k1 curve.

Representation choices, stated once:

* `big.Int` values that are always non-negative in the code (hash outputs,
  scalars, coordinates) are embedded as `Nat`; the one value the code can
  drive negative (the DLEQ response `r`, built with `big.Int.Sub` and never
  reduced afterwards) is embedded as `Int`.
* `big.Int.Exp b e m` (modular exponentiation) is embedded as `powMod m b e`,
  a fuel-driven square-and-multiply definition so that concrete instances
  evaluate inside the kernel; `powMod_correct` proves it equal to `b ^ e % m`
  for every exponent below `2 ^ 257` (all exponents the code uses are below
  `2 ^ 256`).
* Curve points in the hash-to-curve layer are coordinate pairs (`Point`),
  exactly as in the source.
* In the PVSS / DLEQ layer the code touches points only through
  `ScalarBaseMult`, `ScalarMult` and (in the specified verifier) point
  addition, never through coordinate arithmetic.  secp256k1 is a cyclic
  group of prime order `generatorOrder`, so those points are embedded by
  their discrete logarithm with respect to the generator `G`:
  `ScalarBaseMult k = k % generatorOrder`,
  `ScalarMult P k = k * P % generatorOrder`, point addition is addition
  modulo `generatorOrder`.  The map from group elements to coordinate pairs
  is injective, so the Keccak-256 challenge hash over coordinate bytes is
  embedded as an arbitrary function of the four group elements, passed as a
  parameter (Keccak-256 itself is an external library primitive, modelled
  as an uninterpreted deterministic function; likewise the CSPRNG draws
  are passed in as explicit nonce parameters).
-/

namespace Pvss

/-- Field prime of secp256k1; the source constant `fieldOrder`. -/
def fieldOrder : Nat :=
  0xfffffffffffffffffffffffffffffffffffffffffffffffffffffffefffffc2f

/-- Order of the secp256k1 generator; the source constant `generatorOrder`. -/
def generatorOrder : Nat :=
  0xfffffffffffffffffffffffffffffffebaaedce6af48a03bbfd25e8cd0364141

/-- Square-root exponent `(fieldOrder + 1) / 4`; the source constant `sqRoot`. -/
def sqRoot : Nat :=
  0x3fffffffffffffffffffffffffffffffffffffffffffffffffffffffbfffff0c

/-- Square-and-multiply core of modular exponentiation, structurally
recursive on a fuel argument so the kernel can evaluate concrete calls. -/
def powModAux (m b : Nat) : Nat → Nat → Nat
  | 0, _ => 1 % m
  | fuel + 1, e =>
    if e = 0 then 1 % m
    else
      let h := powModAux m (b * b % m) fuel (e / 2)
      if e % 2 = 1 then b * h % m else h

/-- Embedding of `big.Int.Exp b e m`: `b ^ e` modulo `m`.  Fuel `257`
covers every exponent below `2 ^ 257`, hence every exponent the source
uses (`2`, `3` and `sqRoot`). -/
def powMod (m b e : Nat) : Nat := powModAux m b 257 e

/-- Curve point as a coordinate pair, the source struct `Point`.  Coordinates
are `big.Int` values, embedded as `Nat`. -/
structure Point where
  x : Nat
  y : Nat
deriving DecidableEq

/-- Body of the search loop of the source function `hashToPoint` (lines
75 to 87): given the current candidate `x`, compute
`beta = (x ^ 3 % fieldOrder + 7) % fieldOrder`, a square-root candidate
`y = beta ^ sqRoot % fieldOrder`, and return `(x, y)` when `y ^ 2 % fieldOrder`
equals `beta`, otherwise move on to `x + 1`.  The Go loop is `for { ... }`
with no bound, so the embedding adds a fuel argument to make it total;
`none` means only that the fuel ran out, an outcome the Go code does not
have (it would keep looping). -/
def hashToPointAux : Nat → Nat → Option Point
  | 0, _ => none
  | fuel + 1, x =>
    let beta := (powMod fieldOrder x 3 + 7) % fieldOrder
    let y := powMod fieldOrder beta sqRoot
    if powMod fieldOrder y 2 = beta then some ⟨x, y⟩
    else hashToPointAux fuel (x + 1)

/-- The source function `hashToPoint(data)`.  Keccak-256 is an external
primitive, so the embedding takes the digest `big.Int` value
`x = SetBytes(Keccak256(data))` as its input (any value below `2 ^ 256`
for a real 32-byte digest; the code never reduces it modulo `fieldOrder`),
plus the fuel for the unbounded search loop. -/
def hashToPoint (digest : Nat) (fuel : Nat) : Option Point :=
  hashToPointAux fuel digest

/-- The source struct `PrimaryPolynomial`: coefficient list and threshold. -/
structure PrimaryPolynomial where
  coeff : List Nat
  threshold : Nat

/-- Loop of the source function `polyEval` (lines 145 to 152), with the
iteration count `k` standing for the remaining iterations
(`threshold - i`).  Each pass adds `xi * coeff[i]` to the accumulator,
reduces modulo `fieldOrder`, and then squares `xi` modulo `fieldOrder`
(the code squares the running power instead of multiplying it by the
evaluation point). -/
def polyEvalAux (coeff : List Nat) : Nat → Nat → Nat → Nat → Nat
  | 0, _, _, sum => sum
  | k + 1, i, xi, sum =>
    polyEvalAux coeff k (i + 1) (xi * xi % fieldOrder)
      ((sum + xi * coeff.getD i 0) % fieldOrder)

/-- The source function `polyEval(polynomial, x)`: start from
`sum = coeff[0]` (never reduced) and run the loop for
`i = 1 .. threshold - 1`. -/
def polyEval (polynomial : PrimaryPolynomial) (x : Nat) : Nat :=
  polyEvalAux polynomial.coeff (polynomial.threshold - 1) 1 x
    (polynomial.coeff.getD 0 0)

/-- Follows the spec, for comparison with `polyEval` (spec 4.2):
Horner evaluation of `coeff[0..threshold-1]` at `x`, starting from the
highest-degree coefficient, multiplying by `x` and adding the next lower
coefficient, reducing modulo `generatorOrder` after each step. -/
def polyEvalHorner (polynomial : PrimaryPolynomial) (x : Nat) : Nat :=
  (polynomial.coeff.take polynomial.threshold).foldr
    (fun c acc => (acc * x + c) % generatorOrder) 0

/-!
Group layer.  secp256k1 is a cyclic group of prime order `generatorOrder`
generated by `G`; the PVSS / DLEQ code manipulates its elements only
through the two scalar-multiplication primitives of the curve library and
(in the specified verifier) point addition.  A group element is therefore
embedded by its discrete logarithm with respect to `G`, a `Nat` below
`generatorOrder`.
-/

/-- `s.ScalarBaseMult(k.Bytes())`: the point `k * G`, i.e. discrete
logarithm `k % generatorOrder` (the library consumes the big-endian bytes
of `k`, so a non-negative scalar of any size is reduced by the group
order). -/
def ScalarBaseMult (k : Nat) : Nat := k % generatorOrder

/-- `s.ScalarMult(&P.x, &P.y, k.Bytes())`: the point `k * P`, i.e.
discrete logarithm `k * P % generatorOrder`. -/
def ScalarMult (P k : Nat) : Nat := k * P % generatorOrder

/-- Point addition of the curve group in discrete-logarithm
representation. -/
def pointAdd (P Q : Nat) : Nat := (P + Q) % generatorOrder

/-- The source function `getShares(polynomial, n)`: the list
`[polyEval(polynomial, 1), ..., polyEval(polynomial, n)]`. -/
def getShares (polynomial : PrimaryPolynomial) (n : Nat) : List Nat :=
  (List.range n).map fun i => polyEval polynomial (i + 1)

/-- The source function `getCommit(polynomial, threshold)`: the Feldman
commitments `coeff[i] * G` for `i = 0 .. threshold - 1`. -/
def getCommit (polynomial : PrimaryPolynomial) (threshold : Nat) : List Nat :=
  (List.range threshold).map fun i =>
    ScalarBaseMult (polynomial.coeff.getD i 0)

/-- The source struct `DLEQProof`.  `c` is a hash digest read with
`SetBytes`, hence non-negative; `r` is produced by `big.Int.Sub` and can
be negative, hence `Int`. -/
structure DLEQProof where
  c : Nat
  r : Int
  vG : Nat
  vH : Nat
  xG : Nat
  xH : Nat
deriving DecidableEq

/-- The source function `createDlEQProof(secret, nodePubKey)`.  The fresh
random commitment `v` and the Keccak-256 challenge hash (a function of the
four points, injective coordinate encoding) are effects of the Go code and
are passed as explicit parameters.  Note the response: the code computes
`r = v - (c * secret % fieldOrder)` — the product is reduced by the FIELD
order, not the group order, and the difference is never reduced at all
(the source comment asks, unresolved, whether it should be). -/
def createDlEQProof (secret nodePubKey : Nat) (v : Nat)
    (hash : Nat → Nat → Nat → Nat → Nat) : DLEQProof :=
  let xG := ScalarBaseMult secret
  let xH := ScalarMult nodePubKey secret
  let vG := ScalarBaseMult v
  let vH := ScalarMult nodePubKey v
  let c := hash xG xH vG vH
  let r : Int := (v : Int) - ((c * secret % fieldOrder : Nat) : Int)
  ⟨c, r, vG, vH, xG, xH⟩

/-- Modelled from the spec: DLEQ verification (spec 4.4) is absent from the
source (the spec notes the reference leaves it unimplemented), so it is
taken from the spec text: check `r * G + c * xG == vG`,
`r * Y + c * xH == vH`, and that the recomputed challenge equals `c`.
The scalar `r` reaches the curve library through `big.Int.Bytes`, which
yields the bytes of the absolute value, hence `r.natAbs`. -/
def dlEQVerify (proof : DLEQProof) (Y : Nat)
    (hash : Nat → Nat → Nat → Nat → Nat) : Bool :=
  (pointAdd (ScalarBaseMult proof.r.natAbs) (ScalarMult proof.xG proof.c)
      == proof.vG)
    && (pointAdd (ScalarMult Y proof.r.natAbs) (ScalarMult proof.xH proof.c)
      == proof.vH)
    && (hash proof.xG proof.xH proof.vG proof.vH == proof.c)

/-- The source struct `PrimaryShares`: share index and value. -/
structure PrimaryShares where
  Index : Int
  Value : Nat

/-- The source function `batchCreateDLEQProof(nodes, shares)`: `nil` (here
`none`) when the two lists differ in length, otherwise one proof per
index, `proofs[i] = createDlEQProof(shares[i].Value, nodes[i])`.  The
per-call fresh nonce is the effect parameter `vs`, indexed by `i`. -/
def batchCreateDLEQProof (nodes : List Nat) (shares : List PrimaryShares)
    (vs : Nat → Nat) (hash : Nat → Nat → Nat → Nat → Nat) :
    Option (List DLEQProof) :=
  if nodes.length = shares.length then
    some ((List.range nodes.length).map fun i =>
      createDlEQProof ((shares.getD i ⟨0, 0⟩).Value) (nodes.getD i 0)
        (vs i) hash)
  else none

/-- The source function `encShares(nodes, secret, threshold)` (lines 237
to 257).  It builds `encryptedShares := make([]big.Int, n)` — a slice of
`n` zero values that is NEVER written afterwards — builds the polynomial
`coeff[0] = secret`, `coeff[1..threshold-1]` random (effect parameter
`randCoeffs`), computes the shares and the commitments, prints the three
slices and returns nothing.  The embedding returns the triple
`(encryptedShares, shares, commits)` the code computes (and prints); of
`nodes` the code only ever reads the length. -/
def encShares (nodes : List Nat) (secret : Nat) (threshold : Nat)
    (randCoeffs : Nat → Nat) : List Nat × List Nat × List Nat :=
  let n := nodes.length
  let encryptedShares := List.replicate n 0
  let coeff := secret :: (List.range (threshold - 1)).map fun i =>
    randCoeffs (i + 1)
  let polynomial : PrimaryPolynomial := ⟨coeff, threshold⟩
  (encryptedShares, getShares polynomial n, getCommit polynomial threshold)

/-- The `D` scalar of an `ecdsa.PrivateKey`. -/
structure PrivateKey where
  D : Nat

/-- The source function `DecShare(encShareX, encShareY, consistencyProof,
key)` (lines 262 to 279).  Every step of the documented behaviour is
commented out in the source; the surviving body computes
`ModInverse(generatorOrder, key.D)` into a local that is never read (note
the arguments are swapped: it would be the inverse OF `generatorOrder`
MODULO `key.D`) and returns `*new(big.Int)`, the zero value.  The dead
`ModInverse` local cannot affect the result and is elided. -/
def DecShare (encShareX encShareY consistencyProof : Nat)
    (key : PrivateKey) : Nat :=
  0

/-! Helper lemmas. -/

theorem powModAux_lt (m b : Nat) (hm : 0 < m) :
    ∀ fuel e, powModAux m b fuel e < m := by
  intro fuel
  induction fuel generalizing b with
  | zero => intro e; simpa [powModAux] using Nat.mod_lt _ hm
  | succ n ih =>
    intro e
    simp only [powModAux]
    split
    · exact Nat.mod_lt _ hm
    · split
      · exact Nat.mod_lt _ hm
      · exact ih _ _

theorem powModAux_correct (m b : Nat) :
    ∀ fuel e, e < 2 ^ fuel → powModAux m b fuel e = b ^ e % m := by
  intro fuel
  induction fuel generalizing b with
  | zero =>
    intro e he
    interval_cases e
    simp [powModAux]
  | succ n ih =>
    intro e he
    by_cases h0 : e = 0
    · simp [powModAux, h0]
    · have hdiv : e / 2 < 2 ^ n := by
        have : e < 2 ^ n * 2 := by
          simpa [Nat.pow_succ] using he
        omega
      have hrec := ih (b * b % m) (e / 2) hdiv
      have hsq : (b * b % m) ^ (e / 2) % m = (b * b) ^ (e / 2) % m :=
        (Nat.pow_mod (b * b) (e / 2) m).symm
      have hbb : (b * b) ^ (e / 2) = b ^ (2 * (e / 2)) := by
        rw [Nat.pow_mul]
        ring
      rcases Nat.even_or_odd e with he2 | he2
      · have hmod : e % 2 = 0 := Nat.even_iff.mp he2
        have hee : 2 * (e / 2) = e := by omega
        simp only [powModAux]
        rw [if_neg h0, if_neg (by omega : ¬e % 2 = 1), hrec, hsq, hbb, hee]
      · have hmod : e % 2 = 1 := Nat.odd_iff.mp he2
        have hee : 2 * (e / 2) + 1 = e := by omega
        simp only [powModAux]
        rw [if_neg h0, if_pos hmod, hrec, hsq, hbb]
        have h1 : b * (b ^ (2 * (e / 2)) % m) % m = b * b ^ (2 * (e / 2)) % m :=
          (Nat.mod_modEq (b ^ (2 * (e / 2))) m).mul_left b
        rw [h1, ← pow_succ', hee]

theorem powMod_correct (m b e : Nat) (he : e < 2 ^ 257) :
    powMod m b e = b ^ e % m :=
  powModAux_correct m b 257 e he

theorem powMod_lt (m b e : Nat) (hm : 0 < m) : powMod m b e < m :=
  powModAux_lt m b hm 257 e

theorem polyEvalAux_one (coeff : List Nat) :
    ∀ k i s, 1 ≤ k → i + k ≤ coeff.length →
      polyEvalAux coeff k i 1 s =
        (s + ((coeff.drop i).take k).sum) % fieldOrder := by
  intro k
  induction k with
  | zero => intro i s h _; exact absurd h (by decide)
  | succ k ih =>
    intro i s _ h2
    have hi : i < coeff.length := by omega
    have hone : (1 : Nat) % fieldOrder = 1 := by decide
    have hstep : polyEvalAux coeff (k + 1) i 1 s =
        polyEvalAux coeff k (i + 1) 1
          ((s + coeff.getD i 0) % fieldOrder) := by
      simp only [polyEvalAux, Nat.one_mul, hone]
    rw [hstep, List.drop_eq_getElem_cons hi, List.take_succ_cons,
      List.sum_cons, List.getD_eq_getElem coeff 0 hi]
    rcases Nat.eq_zero_or_pos k with rfl | hk
    · simp only [polyEvalAux, List.take_zero, List.sum_nil, Nat.add_zero,
        Nat.add_assoc]
    · have h2' : (i + 1) + k ≤ coeff.length := by omega
      rw [ih (i + 1) ((s + coeff[i]) % fieldOrder) hk h2']
      have hcong : ((s + coeff[i]) % fieldOrder +
            ((coeff.drop (i + 1)).take k).sum) % fieldOrder =
          (s + coeff[i] + ((coeff.drop (i + 1)).take k).sum) % fieldOrder :=
        (Nat.mod_modEq (s + coeff[i]) fieldOrder).add_right _
      rw [hcong, Nat.add_assoc]

/-! Claim theorems. -/

/-- Claim C1: `polyEval` is claimed to compute
`p(i) = coeff[0] + coeff[1] * i + ... + coeff[threshold-1] * i ^ (threshold-1)`
modulo the generator order, by Horner.  It does not: on the polynomial
`x ^ 3` (coefficients `[0, 0, 0, 1]`, threshold 4) at `i = 2` the code
returns `16 = 2 ^ 4` (it squares the running power each step, so
coefficient `i` is paired with `x ^ (2 ^ (i - 1))`), while Horner
evaluation modulo the generator order gives `8 = 2 ^ 3`.  Moreover the
code reduces modulo `fieldOrder`, not `generatorOrder`: on coefficients
`[0, generatorOrder - 1]` at `i = 2` the two moduli give different
results. -/
theorem polyEval_failing_input :
    polyEval ⟨[0, 0, 0, 1], 4⟩ 2 = 16 ∧
    polyEvalHorner ⟨[0, 0, 0, 1], 4⟩ 2 = 8 ∧
    polyEval ⟨[0, generatorOrder - 1], 2⟩ 2 =
      2 * (generatorOrder - 1) % fieldOrder ∧
    polyEvalHorner ⟨[0, generatorOrder - 1], 2⟩ 2 =
      2 * (generatorOrder - 1) % generatorOrder ∧
    2 * (generatorOrder - 1) % fieldOrder ≠
      2 * (generatorOrder - 1) % generatorOrder := by
  decide

/-- Claim C2: a proof produced by `createDlEQProof` is claimed to pass the
three DLEQ verification checks of the spec against the base it was built
for (completeness).  It does not: the response is computed as
`r = v - (c * secret % fieldOrder)` instead of `v - c * secret` modulo
`generatorOrder`, so the first check `r * G + c * xG == vG` fails.
Concretely, with secret 3, base point `2 * G`, nonce 5 and a challenge
hash equal to `fieldOrder`, verification rejects the freshly generated
proof. -/
theorem dleq_generated_proof_fails_verification :
    dlEQVerify
      (createDlEQProof 3 2 5 (fun _ _ _ _ => fieldOrder)) 2
      (fun _ _ _ _ => fieldOrder) = false := by
  decide

/-- Claim C3: `DecShare` is claimed to return `d⁻¹ * S = shareValue * G`.
The source body is commented out: the function returns the zero `big.Int`
for every input, so for the encrypted share `S = 1 * 1 * G` (share value
1, private key `d = 1`) it does not return the committed share point
`1 * G`. -/
theorem decShare_returns_zero :
    (∀ x y cp k, DecShare x y cp k = 0) ∧
    DecShare 1 1 0 ⟨1⟩ ≠ ScalarBaseMult 1 :=
  ⟨fun _ _ _ _ => rfl, by decide⟩

/-- Claim C4: `encShares` is claimed to output encrypted shares
`shares[i] * publicKey_i` with a DLEQ proof per node.  The code
zero-initialises the `encryptedShares` slice and never writes it (and
never calls `createDlEQProof`): the first component of everything it
computes is the all-zero list, which on the concrete instance of one node
with public key `G`, secret 1 and threshold 1 differs from the claimed
`[shares[0] * publicKey_0]`. -/
theorem encShares_encrypts_nothing :
    (∀ nodes secret threshold randCoeffs,
      (encShares nodes secret threshold randCoeffs).1 =
        List.replicate nodes.length 0) ∧
    (encShares [1] 1 1 (fun _ => 0)).1 ≠
      [ScalarMult 1 ((encShares [1] 1 1 (fun _ => 0)).2.1.getD 0 0)] :=
  ⟨fun _ _ _ _ => rfl, by decide⟩

/-- Claim C6: the DLEQ response is claimed to be
`r = v - c * secret (mod generatorOrder)`, a canonical scalar in
`[0, generatorOrder)`.  With secret 3, nonce `v = 0` and challenge 1 the
code returns the negative integer `-3` (it subtracts
`c * secret % fieldOrder` from `v` and never reduces), while the claimed
canonical value is `generatorOrder - 3`. -/
theorem dleq_response_not_canonical :
    (createDlEQProof 3 2 0 (fun _ _ _ _ => 1)).r = -3 ∧
    ¬(0 ≤ (createDlEQProof 3 2 0 (fun _ _ _ _ => 1)).r) ∧
    ((0 : Int) - 1 * 3) % (generatorOrder : Int) = (generatorOrder : Int) - 3 ∧
    (createDlEQProof 3 2 0 (fun _ _ _ _ => 1)).r ≠
      ((0 : Int) - 1 * 3) % (generatorOrder : Int) := by
  decide

/-- Claim C7: `batchCreateDLEQProof` fails (returns `nil`, embedded as
`none`) when the node list and the share list differ in length, and
otherwise returns exactly one proof per pair, the `i`-th proof generated
from `shares[i].Value` and `nodes[i]`. -/
theorem batchCreateDLEQProof_spec (nodes : List Nat)
    (shares : List PrimaryShares) (vs : Nat → Nat)
    (hash : Nat → Nat → Nat → Nat → Nat) :
    (nodes.length ≠ shares.length →
      batchCreateDLEQProof nodes shares vs hash = none) ∧
    (nodes.length = shares.length →
      ∃ proofs, batchCreateDLEQProof nodes shares vs hash = some proofs ∧
        proofs.length = nodes.length ∧
        ∀ i, i < nodes.length →
          proofs.getD i ⟨0, 0, 0, 0, 0, 0⟩ =
            createDlEQProof ((shares.getD i ⟨0, 0⟩).Value) (nodes.getD i 0)
              (vs i) hash) := by
  constructor
  · intro h
    simp [batchCreateDLEQProof, h]
  · intro h
    refine ⟨(List.range nodes.length).map fun i =>
      createDlEQProof ((shares.getD i ⟨0, 0⟩).Value) (nodes.getD i 0)
        (vs i) hash, ?_, ?_, ?_⟩
    · simp [batchCreateDLEQProof, h]
    · simp
    · intro i hi
      rw [List.getD_eq_getElem?_getD, List.getElem?_map,
        List.getElem?_range hi]
      rfl

/-- Witness for claim C7 at concrete inputs: a one-node list against an
empty share list fails, and against a matching one-share list produces
exactly the proof built from that share value and that node. -/
theorem batchCreateDLEQProof_spec_witness :
    (batchCreateDLEQProof [5] [] (fun _ => 11) (fun _ _ _ _ => 0) = none) ∧
    (∃ proofs,
      batchCreateDLEQProof [5] [⟨1, 7⟩] (fun _ => 11) (fun _ _ _ _ => 0) =
        some proofs ∧
      proofs.length = ([5] : List Nat).length ∧
      ∀ i, i < ([5] : List Nat).length →
        proofs.getD i ⟨0, 0, 0, 0, 0, 0⟩ =
          createDlEQProof
            ((([⟨1, 7⟩] : List PrimaryShares).getD i ⟨0, 0⟩).Value)
            (([5] : List Nat).getD i 0) ((fun _ => (11 : Nat)) i)
            (fun _ _ _ _ => 0)) :=
  ⟨(batchCreateDLEQProof_spec [5] [] (fun _ => 11) (fun _ _ _ _ => 0)).1
      (by decide),
   (batchCreateDLEQProof_spec [5] [⟨1, 7⟩] (fun _ => 11)
      (fun _ _ _ _ => 0)).2 (by decide)⟩

/-- Claim C8 (amended): whenever the `hashToPoint` search returns a point,
that point satisfies the curve equation `y ^ 2 = x ^ 3 + 7` modulo
`fieldOrder`, and its `y` coordinate is canonical (below `fieldOrder`).
The x coordinate, however, is not reduced modulo `fieldOrder` (see the
counterexample theorem). -/
theorem hashToPoint_on_curve :
    ∀ fuel digest x y, hashToPoint digest fuel = some ⟨x, y⟩ →
      y ^ 2 % fieldOrder = (x ^ 3 + 7) % fieldOrder ∧ y < fieldOrder := by
  intro fuel
  induction fuel with
  | zero =>
    intro digest x y h
    exact absurd h (by simp [hashToPoint, hashToPointAux])
  | succ n ih =>
    intro digest x y h
    simp only [hashToPoint, hashToPointAux] at h
    by_cases hg : powMod fieldOrder
        (powMod fieldOrder ((powMod fieldOrder digest 3 + 7) % fieldOrder)
          sqRoot) 2 =
        (powMod fieldOrder digest 3 + 7) % fieldOrder
    · rw [if_pos hg] at h
      simp only [Option.some.injEq, Point.mk.injEq] at h
      obtain ⟨rfl, rfl⟩ := h
      constructor
      · rw [← powMod_correct fieldOrder _ 2 (by norm_num), hg,
          powMod_correct fieldOrder digest 3 (by norm_num)]
        have h7 : (7 : Nat) % fieldOrder = 7 := by decide
        conv_rhs => rw [Nat.add_mod, h7]
      · exact powMod_lt _ _ _ (by decide)
    · rw [if_neg hg] at h
      exact ih (digest + 1) x y h

set_option maxRecDepth 100000 in
/-- Witness for claim C8 at digest 1 (so `x = 1`, `beta = 8`): the search
succeeds in one iteration and the returned point satisfies the curve
equation with a canonical y coordinate. -/
theorem hashToPoint_on_curve_witness :
    hashToPoint 1 1 = some ⟨1, powMod fieldOrder 8 sqRoot⟩ ∧
    (powMod fieldOrder 8 sqRoot) ^ 2 % fieldOrder =
      ((1 : Nat) ^ 3 + 7) % fieldOrder ∧
    powMod fieldOrder 8 sqRoot < fieldOrder :=
  ⟨by decide,
   (hashToPoint_on_curve 1 1 1 (powMod fieldOrder 8 sqRoot) (by decide)).1,
   (hashToPoint_on_curve 1 1 1 (powMod fieldOrder 8 sqRoot) (by decide)).2⟩

set_option maxRecDepth 100000 in
/-- Claim C8, counterexample to the x coordinate being a canonical field
element: the code never reduces the running x value modulo `fieldOrder`
(the digest is used raw, a 256-bit value that can exceed the prime).  On
digest `fieldOrder + 1` the very first candidate succeeds (`beta = 8`, a
quadratic residue) and the returned point has `x = fieldOrder + 1`, which
is not below `fieldOrder`. -/
theorem hashToPoint_x_not_canonical :
    hashToPoint (fieldOrder + 1) 1 =
      some ⟨fieldOrder + 1, powMod fieldOrder 8 sqRoot⟩ ∧
    ¬(fieldOrder + 1 < fieldOrder) := by
  decide

/-- Claim C9: `hashToPoint` is deterministic — two runs on the same digest
(with any fuel each, modelling repeated calls to the unbounded Go loop)
that both return a point return the same point. -/
theorem hashToPoint_deterministic :
    ∀ fuel fuel' digest pt pt', hashToPoint digest fuel = some pt →
      hashToPoint digest fuel' = some pt' → pt = pt' := by
  intro fuel
  induction fuel with
  | zero =>
    intro fuel' digest pt pt' h
    exact absurd h (by simp [hashToPoint, hashToPointAux])
  | succ n ih =>
    intro fuel' digest pt pt' h h'
    cases fuel' with
    | zero => exact absurd h' (by simp [hashToPoint, hashToPointAux])
    | succ m =>
      simp only [hashToPoint, hashToPointAux] at h h'
      by_cases hg : powMod fieldOrder
          (powMod fieldOrder ((powMod fieldOrder digest 3 + 7) % fieldOrder)
            sqRoot) 2 =
          (powMod fieldOrder digest 3 + 7) % fieldOrder
      · rw [if_pos hg] at h h'
        exact (Option.some.inj h).symm.trans (Option.some.inj h')
      · rw [if_neg hg] at h h'
        exact ih m (digest + 1) pt pt' h h'

set_option maxRecDepth 100000 in
/-- Witness for claim C9: two calls on digest 1, one with fuel 1 and one
with fuel 2, return the same point. -/
theorem hashToPoint_deterministic_witness :
    hashToPoint 1 1 = some ⟨1, powMod fieldOrder 8 sqRoot⟩ ∧
    hashToPoint 1 2 = some ⟨1, powMod fieldOrder 8 sqRoot⟩ ∧
    (⟨1, powMod fieldOrder 8 sqRoot⟩ : Point) =
      ⟨1, powMod fieldOrder 8 sqRoot⟩ :=
  ⟨by decide, by decide,
   hashToPoint_deterministic 1 2 1 _ _ (by decide) (by decide)⟩

/-- Claim C10 (amended): at evaluation point 1 the squaring scheme of
`polyEval` degenerates (every power of 1 is 1), so `polyEval(poly, 1)`
equals the sum of the `threshold` coefficients reduced modulo the field
prime — provided `threshold ≥ 2`, or `coeff[0]` is already below
`fieldOrder` (with `threshold = 1` the code returns `coeff[0]` without
any reduction, see the counterexample theorem). -/
theorem polyEval_at_one (coeff : List Nat) (t : Nat) (h1 : 1 ≤ t)
    (h2 : t ≤ coeff.length)
    (h3 : 2 ≤ t ∨ coeff.getD 0 0 < fieldOrder) :
    polyEval ⟨coeff, t⟩ 1 = (coeff.take t).sum % fieldOrder := by
  cases coeff with
  | nil => simp at h2; omega
  | cons c cs =>
    rcases Nat.lt_or_ge t 2 with ht | ht
    · have ht1 : t = 1 := by omega
      subst ht1
      have hc : c < fieldOrder := by
        simpa using h3.resolve_left (by omega)
      show polyEvalAux (c :: cs) 0 1 1 ((c :: cs).getD 0 0) = _
      simp only [polyEvalAux, List.getD, List.take_succ_cons,
        List.take_zero, List.sum_cons, List.sum_nil, Nat.add_zero]
      exact (Nat.mod_eq_of_lt hc).symm
    · obtain ⟨t', rfl⟩ : ∃ t', t = t' + 1 := ⟨t - 1, by omega⟩
      have hk : 1 ≤ t' := by omega
      have hik : 1 + t' ≤ (c :: cs).length := by
        simp only [List.length_cons] at h2 ⊢
        omega
      show polyEvalAux (c :: cs) t' 1 1 ((c :: cs).getD 0 0) = _
      rw [polyEvalAux_one (c :: cs) t' 1 ((c :: cs).getD 0 0) hk hik]
      simp only [List.getD, List.drop_succ_cons, List.drop_zero,
        List.take_succ_cons, List.sum_cons]
      rfl

/-- Witness for claim C10: the polynomial with coefficients `[2, 3]` and
threshold 2, evaluated at 1, gives `(2 + 3) % fieldOrder`. -/
theorem polyEval_at_one_witness :
    polyEval ⟨[2, 3], 2⟩ 1 = (([2, 3] : List Nat).take 2).sum % fieldOrder :=
  polyEval_at_one [2, 3] 2 (by decide) (by decide) (Or.inl (by decide))

/-- Claim C10, counterexample to the unconditional statement: with
threshold 1 and the single coefficient `fieldOrder` the code returns
`coeff[0]` without reducing it, which differs from the sum of the
coefficients reduced modulo the field prime. -/
theorem polyEval_at_one_unreduced :
    polyEval ⟨[fieldOrder], 1⟩ 1 = fieldOrder ∧
    (([fieldOrder] : List Nat).take 1).sum % fieldOrder = 0 ∧
    fieldOrder ≠ 0 := by
  decide

end Pvss
